import Mathlib

/-!
# Formatting and shutdown paths of the NFS server (`nfs/nfs.go`)

A shallow embedding of `MakeNfs`, `makeFs`, `markAlloc`, `readRootInode`,
`makeRootDir`, `ShutdownNfs` and `Crash`.

* A disk block is a list of bytes, a disk a total map from block numbers to
  blocks (disk reads and writes are infallible).
* Every call that leaves `nfs.go` (disk, log, transaction, shrinker) is
  recorded as an `Event` in the order in which it is made; calls that only
  compute a value (`Inum2Addr`, `Encode`, `MkBuf`, `MkBufLoad`, `Decode`, the
  layout getters) are not recorded.
* A Go `panic` is a `Result.panic` that carries the state reached so far.
* `uint64` arithmetic that can wrap is written with `u64`.
* `util.DPrintf` only prints; it is left out of the model.
-/

namespace NfsModel

/-! ## Constants and data model -/

/-- Modelled from the spec: `disk.BlockSize`, the size in bytes of one disk
block (a library constant, not part of the sources): 4096. -/
def BlockSize : Nat := 4096

/-- Modelled from the spec: `common.NBITBLOCK`, the number of bits in one
block, `8 * BlockSize` (a library constant, not part of the sources). -/
def NBITBLOCK : Nat := BlockSize * 8

/-- Modelled from the spec: `common.ROOTINUM`, the reserved inode number of the
root directory; inodes 0 and 1 are the two reserved numbers. -/
def ROOTINUM : Nat := 1

/-- Reduction of a natural number to the range of a Go `uint64`. -/
def u64 (x : Nat) : Nat := x % 2 ^ 64

/-- A disk block: its bytes, in order. -/
abbrev Block := List Nat

/-- A disk: the block stored at each block number. -/
abbrev Disk := Nat → Block

/-- Modelled from the spec: the superblock layout `super.FsSuper` (its package
is not part of the sources). `NBlockBitmap` is the field read by `markAlloc`;
the other components are the values returned by the layout methods
`BitmapBlockStart()`, `BitmapInodeStart()`, `DataStart()`, `MaxBnum()` and by
`Inum2Addr(ROOTINUM).Blkno`. All are `uint64` values. -/
structure FsSuper where
  NBlockBitmap : Nat
  BitmapBlockStart : Nat
  BitmapInodeStart : Nat
  DataStart : Nat
  MaxBnum : Nat
  RootBlkno : Nat
  deriving DecidableEq, Repr

/-- The calls that leave `nfs.go`, as recorded in the trace. -/
inductive Event where
  | mkFsSuper
  | mkLog
  | diskRead (a : Nat)
  | mkRootInode
  | writeDirect (a : Nat)
  | diskWrite (a : Nat)
  | mkFsState
  | mkShrinkerSt
  | begin
  | getInodeInumFree (inum : Nat)
  | mkRootDir
  | commit
  | shrinkerShutdown
  | shrinkerCrash
  | txnShutdown
  deriving DecidableEq, Repr

/-- The state threaded through the server code: the disk and the trace of
external calls made so far (oldest first). -/
structure World where
  disk : Disk
  trace : List Event

/-- The three `panic` sites of `nfs.go`, plus Go's run-time index check. -/
inductive PanicMsg where
  | markAllocConfig
  | indexOutOfRange
  | makeRootDir
  deriving DecidableEq, Repr

/-- Outcome of running a piece of the server: normal return or `panic`, each
with the state reached. -/
inductive Result (α : Type) where
  | ok (val : α) (w : World)
  | panic (msg : PanicMsg) (w : World)

/-- State reached by a run, whether it returned or panicked. -/
def Result.world {α : Type} : Result α → World
  | .ok _ w => w
  | .panic _ w => w

/-- The panic raised by a run, if any. -/
def Result.panicMsg {α : Type} : Result α → Option PanicMsg
  | .ok _ _ => none
  | .panic msg _ => some msg

/-- Sequencing: a panic stops the run. -/
def Result.andThen {α β : Type} (r : Result α) (k : α → World → Result β) : Result β :=
  match r with
  | .ok a w => k a w
  | .panic msg w => .panic msg w

/-- The call `super.Disk.Read(a)`: recorded, the disk is not changed. -/
def World.diskRead (w : World) (a : Nat) : World :=
  ⟨w.disk, w.trace ++ [Event.diskRead a]⟩

/-- Content of the disk after `Disk.Write(a, b)`. -/
def Disk.write (d : Disk) (a : Nat) (b : Block) : Disk :=
  fun x => if x = a then b else d x

/-- The call `super.Disk.Write(a, b)`. -/
def World.diskWrite (w : World) (a : Nat) (b : Block) : World :=
  ⟨Disk.write w.disk a b, w.trace ++ [Event.diskWrite a]⟩

/-! ## Bitmap blocks -/

/-- The call `make(disk.Block, disk.BlockSize)`: a zeroed block. -/
def mkBlock : Block := List.replicate BlockSize 0

/-- The statement `blk[i] = blk[i] | v` on bytes; `none` is Go's index-out-of-range
panic. -/
def orByte (blk : Block) (i : Nat) (v : Nat) : Option Block :=
  if h : i < blk.length then some (blk.set i ((blk.get ⟨i, h⟩ ||| v) % 256)) else none

/-- Loop body of `markAlloc`: `byte := bn / 8; bit := bn % 8;
blk[byte] = blk[byte] | 1<<bit`. -/
def setBit (blk : Block) (bn : Nat) : Option Block :=
  orByte blk (bn / 8) ((1 <<< (bn % 8)) % 256)

/-- The loop `for bn := lo; bn < lo + k; bn++ { setBit }`: `k` iterations
starting at `bn`. -/
def markLoop : Nat → Nat → Block → Option Block
  | 0, _, blk => some blk
  | k + 1, bn, blk =>
    match setBit blk bn with
    | none => none
    | some blk1 => markLoop k (bn + 1) blk1

/-- Bit `i` of a bitmap block: bit `i % 8` of byte `i / 8`. -/
def getBit (blk : Block) (i : Nat) : Bool :=
  (blk.getD (i / 8) 0).testBit (i % 8)

/-- Bit `bn` of the block bitmap on disk `d`: bit `bn % NBITBLOCK` of block
`BitmapBlockStart + bn / NBITBLOCK`. -/
def blockBit (super : FsSuper) (d : Disk) (bn : Nat) : Bool :=
  getBit (d (super.BitmapBlockStart + bn / NBITBLOCK)) (bn % NBITBLOCK)

/-- Bit `i` of the inode bitmap on disk `d` (first inode-bitmap block). -/
def inodeBit (super : FsSuper) (d : Disk) (i : Nat) : Bool :=
  getBit (d super.BitmapInodeStart) i

/-! ## `markAlloc` -/

/-- The guard of `markAlloc`: true when the configuration is rejected. -/
def markAllocRejects (super : FsSuper) (n m : Nat) : Bool :=
  decide (n ≥ NBITBLOCK) || decide (m ≥ u64 (NBITBLOCK * super.NBlockBitmap)) || decide (m < n)

/-- The function `markAlloc(super, n, m)`. -/
def markAlloc (super : FsSuper) (n m : Nat) (w : World) : Result Unit :=
  if markAllocRejects super n m then
    .panic .markAllocConfig w
  else
    -- blk := make(disk.Block, disk.BlockSize); for bn := 0; bn < n; bn++
    match markLoop n 0 mkBlock with
    | none => .panic .indexOutOfRange w
    | some blk =>
      let w1 := w.diskWrite super.BitmapBlockStart blk
      let blkno := u64 (m / NBITBLOCK + super.BitmapBlockStart)
      -- blk1 aliases blk unless the second bitmap block is a later one
      let blk1 := if blkno > super.BitmapBlockStart then mkBlock else blk
      -- for bn := m % NBITBLOCK; bn < NBITBLOCK; bn++
      match markLoop (NBITBLOCK - m % NBITBLOCK) (m % NBITBLOCK) blk1 with
      | none => .panic .indexOutOfRange w1
      | some blk1 =>
        let w2 := w1.diskWrite blkno blk1
        -- mark inode 0 and 1 as allocated
        match orByte mkBlock 0 (1 <<< 0) with
        | none => .panic .indexOutOfRange w2
        | some blk2 =>
          match orByte blk2 0 (1 <<< 1) with
          | none => .panic .indexOutOfRange w2
          | some blk2 =>
            .ok () (w2.diskWrite super.BitmapInodeStart blk2)

/-! ## The environment of `nfs.go` -/

/-- The part of `inode.Inode` that `nfs.go` looks at. -/
structure Inode where
  Inum : Nat
  Kind : Nat
  deriving DecidableEq, Repr

/-- The server handle returned by `MakeNfs`; `fsstate` and `shrinkst` are
handles into the environment and carry no data of their own here. -/
structure Nfs where
  Unstable : Bool
  deriving DecidableEq, Repr

/-- Behaviour of the code called by `nfs.go` and not defined in it; all of
it is a parameter of the model.

* `mkFsSuper d` is the layout returned by `super.MkFsSuper(d)`.
* `effect e w` is the disk left by the external call `e` when it is made in
  state `w` (for `obj.MkLog` this includes recovery, for `WriteDirect` the
  write of the root inode's buffer).
* `decode blk inum` is `inode.Decode(buf.MkBufLoad(addr, INODESZ*8, blk), inum)`.
* `getInodeInumFree inum w` and `commitOk w` are the values returned by
  `op.GetInodeInumFree(inum)` and `op.Commit()` when called in state `w`. -/
structure Env where
  mkFsSuper : Disk → FsSuper
  effect : Event → World → Disk
  decode : Block → Nat → Inode
  getInodeInumFree : Nat → World → Option Inode
  commitOk : World → Bool

/-- An external call other than `Disk.Read` and `Disk.Write`: recorded, and
the disk becomes what the environment says the call leaves. -/
def World.call (w : World) (E : Env) (e : Event) : World :=
  ⟨E.effect e w, w.trace ++ [e]⟩

/-! ## The functions of `nfs.go` -/

/-- The function `readRootInode(super)`. -/
def readRootInode (E : Env) (super : FsSuper) (w : World) : Inode × World :=
  let blk := w.disk super.RootBlkno
  (E.decode blk ROOTINUM, w.diskRead super.RootBlkno)

/-- The function `makeFs(super)`: make an empty file system. -/
def makeFs (E : Env) (super : FsSuper) (w : World) : Result Unit :=
  let w1 := w.call E Event.mkRootInode
  let w2 := w1.call E (Event.writeDirect super.RootBlkno)
  markAlloc super super.DataStart super.MaxBnum w2

/-- The method `(nfs *Nfs) makeRootDir()`. -/
def makeRootDir (E : Env) (w : World) : Result Unit :=
  let w1 := w.call E Event.begin
  let ip := E.getInodeInumFree ROOTINUM w1
  let w2 := w1.call E (Event.getInodeInumFree ROOTINUM)
  match ip with
  | none => .panic .makeRootDir w2
  | some _ =>
    let w3 := w2.call E Event.mkRootDir
    let ok := E.commitOk w3
    let w4 := w3.call E Event.commit
    if !ok then .panic .makeRootDir w4 else .ok () w4

/-- The function `MakeNfs(d)`. -/
def MakeNfs (E : Env) (d : Disk) : Result Nfs :=
  let super := E.mkFsSuper d
  let w1 := (World.mk d []).call E Event.mkFsSuper
  let w2 := w1.call E Event.mkLog
  let r := readRootInode E super w2
  let i := r.1
  (if i.Kind = 0 then makeFs E super r.2 else .ok () r.2).andThen fun _ w4 =>
    let w5 := (w4.call E Event.mkFsState).call E Event.mkShrinkerSt
    (if i.Kind = 0 then makeRootDir E w5 else .ok () w5).andThen fun _ w6 =>
      .ok (Nfs.mk true) w6

/-- The method `(nfs *Nfs) ShutdownNfs()`. -/
def ShutdownNfs (E : Env) (w : World) : World :=
  (w.call E Event.shrinkerShutdown).call E Event.txnShutdown

/-- The method `(nfs *Nfs) Crash()`. -/
def Crash (E : Env) (w : World) : World :=
  ShutdownNfs E (w.call E Event.shrinkerCrash)

/-! ## Vocabulary of the statements -/

/-- The bitmap region lies inside the 64-bit block-number space, so that
`BitmapBlockStart + k` is a block number for every `k < NBlockBitmap`. -/
def FsSuper.bitmapInRange (super : FsSuper) : Prop :=
  super.BitmapBlockStart + super.NBlockBitmap ≤ 2 ^ 64

/-- The inode-bitmap block is not one of the block-bitmap blocks. -/
def FsSuper.inodeBitmapOutside (super : FsSuper) : Prop :=
  super.BitmapInodeStart < super.BitmapBlockStart ∨
    super.BitmapBlockStart + super.NBlockBitmap ≤ super.BitmapInodeStart

/-- A write that bypasses the transaction/log path: the root inode's
`WriteDirect` or a raw `Disk.Write`. -/
def Event.isDirectWrite : Event → Bool
  | .writeDirect _ => true
  | .diskWrite _ => true
  | _ => false

/-- A read of the disk made by `nfs.go` itself. -/
def Event.isDiskRead : Event → Bool
  | .diskRead _ => true
  | _ => false

/-- A shutdown or crash operation of the shrinker or transaction manager. -/
def Event.isShutdownOp : Event → Bool
  | .shrinkerShutdown => true
  | .shrinkerCrash => true
  | .txnShutdown => true
  | _ => false

/-- In trace `t`, no event satisfying `p` occurs at or after an event
satisfying `q`: every `p` event comes strictly before every `q` event. -/
def allBefore (p q : Event → Bool) : List Event → Bool
  | [] => true
  | e :: t => (!q e || (!p e && t.all fun f => !p f)) && allBefore p q t

/-- In trace `t`, every event satisfying `p` has an event satisfying `q`
strictly before it; `seen` tells whether a `q` event occurred before `t`. -/
def precededBy (q p : Event → Bool) (seen : Bool) : List Event → Bool
  | [] => true
  | e :: t => (!p e || seen) && precededBy q p (seen || q e) t

/-- The block `markAlloc` builds for the inode bitmap: byte 0 is 3, every
other byte is 0. -/
def inodeBitmapBlock : Block := 3 :: List.replicate (BlockSize - 1) 0

/-- A disk whose blocks are all zero. -/
def zeroDisk : Disk := fun _ => mkBlock

/-- The layout of a disk of 20000 blocks: 513 log blocks, one block-bitmap
block, one inode-bitmap block, 1024 inode blocks. -/
def smallSuper : FsSuper := ⟨1, 513, 514, 1539, 20000, 515⟩

/-- The layout of a disk of 1000 blocks: the same regions as `smallSuper`,
so the data region would start at block 1539, beyond the last block 1000. -/
def tinySuper : FsSuper := ⟨1, 513, 514, 1539, 1000, 515⟩

/-- An environment for a freshly zeroed disk of 20000 blocks: recovery and
the other external calls leave the disk as it is, the root inode decodes as
unused (kind 0), the root inode is handed out and commits succeed. -/
def freshEnv : Env where
  mkFsSuper := fun _ => smallSuper
  effect := fun _ w => w.disk
  decode := fun _ inum => Inode.mk inum 0
  getInodeInumFree := fun inum _ => some (Inode.mk inum 0)
  commitOk := fun _ => true

/-- An environment for a freshly zeroed disk of 1000 blocks, otherwise like
`freshEnv`. -/
def tinyEnv : Env where
  mkFsSuper := fun _ => tinySuper
  effect := fun _ w => w.disk
  decode := fun _ inum => Inode.mk inum 0
  getInodeInumFree := fun inum _ => some (Inode.mk inum 0)
  commitOk := fun _ => true

/-- The call `obj.MkLog(d)`, which creates the log and runs recovery. -/
def Event.isMkLog : Event → Bool
  | .mkLog => true
  | _ => false

/-- A call into the transaction system made by `MakeNfs` after formatting:
building its state or beginning a transaction. -/
def Event.isTxnStart : Event → Bool
  | .mkFsState => true
  | .begin => true
  | _ => false

/-- An environment like `freshEnv` in which the root inode decodes as a
directory (kind 2): the disk already holds a file system. -/
def usedEnv : Env where
  mkFsSuper := fun _ => smallSuper
  effect := fun _ w => w.disk
  decode := fun _ inum => Inode.mk inum 2
  getInodeInumFree := fun inum _ => some (Inode.mk inum 2)
  commitOk := fun _ => true

/-- The disk right after `obj.MkLog(d)` has run recovery in `MakeNfs`. -/
def recovered (E : Env) (d : Disk) : Disk :=
  (((World.mk d []).call E Event.mkFsSuper).call E Event.mkLog).disk

/-- The `Kind` of the root inode as `MakeNfs` reads it: decoded from the root
inode's block of the recovered disk. -/
def rootKind (E : Env) (d : Disk) : Nat :=
  (E.decode (recovered E d (E.mkFsSuper d).RootBlkno) ROOTINUM).Kind

/-- The state in which `makeRootDir` calls `GetInodeInumFree`, when started
in `w`. -/
def fetchState (E : Env) (w : World) : World :=
  w.call E Event.begin

/-- The state in which `makeRootDir` calls `Commit`, when started in `w`. -/
def commitState (E : Env) (w : World) : World :=
  ((fetchState E w).call E (Event.getInodeInumFree ROOTINUM)).call E Event.mkRootDir

/-- The two constructors of the in-memory server state, `fstxn.MkFsState` and
`shrinker.MkShrinkerSt`, leave the disk as it is in environment `E`. -/
def Env.quietState (E : Env) : Prop :=
  ∀ w, E.effect Event.mkFsState w = w.disk ∧ E.effect Event.mkShrinkerSt w = w.disk

/-- The trace of `MakeNfs` up to and including the read of the root inode. -/
def mountHead (E : Env) (d : Disk) : List Event :=
  [Event.mkFsSuper, Event.mkLog, Event.diskRead (E.mkFsSuper d).RootBlkno]

/-- The trace of `MakeNfs` on an unused root inode from `makeFs` up to the
construction of the server state. -/
def formatBody (E : Env) (d : Disk) : List Event :=
  [Event.mkRootInode, Event.writeDirect (E.mkFsSuper d).RootBlkno,
    Event.diskWrite (E.mkFsSuper d).BitmapBlockStart,
    Event.diskWrite (u64 ((E.mkFsSuper d).MaxBnum / NBITBLOCK +
      (E.mkFsSuper d).BitmapBlockStart)),
    Event.diskWrite (E.mkFsSuper d).BitmapInodeStart,
    Event.mkFsState, Event.mkShrinkerSt]

/-! ## Bits of a block -/

theorem getD_eq (blk : Block) (i : Nat) : blk.getD i 0 = (blk[i]?).getD 0 := by
  rw [List.getD_eq_getD_get?, List.get?_eq_getElem?]

theorem getBit_mkBlock (i : Nat) : getBit mkBlock i = false := by
  unfold getBit mkBlock
  rw [getD_eq, List.getElem?_replicate]
  split <;> simp

theorem mkBlock_length : mkBlock.length = BlockSize := by
  simp [mkBlock]

theorem orByte_eq (blk : Block) (i v : Nat) (h : i < blk.length) :
    orByte blk i v = some (blk.set i ((blk.getD i 0 ||| v) % 256)) := by
  unfold orByte
  rw [dif_pos h, getD_eq, List.getElem?_eq_getElem h]
  simp

theorem testBit_mask : ∀ k < 8, ∀ j < 8,
    ((1 <<< k) % 256).testBit j = decide (j = k) := by
  decide

theorem getBit_set (blk : Block) (bn i : Nat) (h : bn / 8 < blk.length) :
    getBit (blk.set (bn / 8) ((blk.getD (bn / 8) 0 ||| (1 <<< (bn % 8)) % 256) % 256)) i
      = (getBit blk i || decide (i = bn)) := by
  unfold getBit
  by_cases hq : i / 8 = bn / 8
  · have hi : i % 8 < 8 := Nat.mod_lt _ (by decide)
    have hb : bn % 8 < 8 := Nat.mod_lt _ (by decide)
    rw [hq, getD_eq (blk.set _ _), List.getElem?_set_self h]
    have h256 : (256 : Nat) = 2 ^ 8 := by norm_num
    simp only [Option.getD_some]
    rw [h256, Nat.testBit_mod_two_pow, Nat.testBit_or, ← h256, testBit_mask _ hb _ hi]
    have : (i = bn) ↔ (i % 8 = bn % 8) := by omega
    simp [hi, this]
  · have hne : i ≠ bn := fun h => hq (by rw [h])
    rw [getD_eq (blk.set _ _), List.getElem?_set_ne (Ne.symm hq), ← getD_eq]
    simp [hne]

theorem setBit_spec (blk : Block) (bn : Nat) (h : bn / 8 < blk.length) :
    ∃ blk1, setBit blk bn = some blk1 ∧ blk1.length = blk.length ∧
      ∀ i, getBit blk1 i = (getBit blk i || decide (i = bn)) := by
  refine ⟨_, orByte_eq blk _ _ h, by simp, fun i => getBit_set blk bn i h⟩

theorem markLoop_spec : ∀ (k bn : Nat) (blk : Block), bn + k ≤ 8 * blk.length →
    ∃ blk1, markLoop k bn blk = some blk1 ∧ blk1.length = blk.length ∧
      ∀ i, getBit blk1 i = (getBit blk i || decide (bn ≤ i ∧ i < bn + k)) := by
  intro k
  induction k with
  | zero =>
    intro bn blk _
    exact ⟨blk, rfl, rfl, fun i => by simp⟩
  | succ k ih =>
    intro bn blk hle
    obtain ⟨b1, hb1, hlen1, hbit1⟩ := setBit_spec blk bn (by omega)
    obtain ⟨b2, hb2, hlen2, hbit2⟩ := ih (bn + 1) b1 (by rw [hlen1]; omega)
    refine ⟨b2, ?_, by rw [hlen2, hlen1], fun i => ?_⟩
    · simp only [markLoop, hb1, hb2]
    · rw [hbit2, hbit1]
      by_cases h1 : i = bn
      · subst h1; simp
      · have : (bn + 1 ≤ i ∧ i < bn + 1 + k) ↔ (bn ≤ i ∧ i < bn + (k + 1)) := by omega
        simp [h1, this]

/-! ## What `markAlloc` writes -/

theorem NBITBLOCK_eq : NBITBLOCK = 32768 := rfl

theorem rejects_false (super : FsSuper) (n m : Nat) (h : markAllocRejects super n m = false) :
    n < 32768 ∧ m < u64 (32768 * super.NBlockBitmap) ∧ n ≤ m := by
  simp only [markAllocRejects, NBITBLOCK_eq, Bool.or_eq_false_iff, decide_eq_false_iff_not,
    ge_iff_le, not_le, not_lt] at h
  exact ⟨h.1.1, h.1.2, h.2⟩

theorem orByte_cons (x v : Nat) (t : Block) :
    orByte (x :: t) 0 v = some (((x ||| v) % 256) :: t) := by
  simp [orByte]

theorem inodeBlock_build :
    (orByte mkBlock 0 (1 <<< 0)).bind (fun b => orByte b 0 (1 <<< 1)) = some inodeBitmapBlock := by
  have h0 : mkBlock = 0 :: List.replicate 4095 0 := by
    show List.replicate (4095 + 1) 0 = _
    rw [List.replicate_succ]
  rw [h0, orByte_cons]
  simp only [Option.some_bind]
  rw [orByte_cons]
  rfl

/-- The three writes of an accepted `markAlloc`, with the bits of the two
block-bitmap blocks it builds. -/
theorem markAlloc_ok (super : FsSuper) (n m : Nat) (h : markAllocRejects super n m = false) :
    ∃ b1 b2 : Block,
      (∀ i, getBit b1 i = decide (i < n)) ∧
      (∀ i, getBit b2 i =
        ((if u64 (m / NBITBLOCK + super.BitmapBlockStart) > super.BitmapBlockStart
            then false else decide (i < n)) || decide (m % NBITBLOCK ≤ i ∧ i < NBITBLOCK))) ∧
      ∀ w, markAlloc super n m w = .ok ()
        (((w.diskWrite super.BitmapBlockStart b1).diskWrite
            (u64 (m / NBITBLOCK + super.BitmapBlockStart)) b2).diskWrite
          super.BitmapInodeStart inodeBitmapBlock) := by
  obtain ⟨hn, _, _⟩ := rejects_false super n m h
  have hlen : mkBlock.length = 4096 := mkBlock_length
  obtain ⟨b1, hb1, hlen1, hbit1⟩ := markLoop_spec n 0 mkBlock (by rw [hlen]; omega)
  have hmod : m % 32768 < 32768 := Nat.mod_lt _ (by decide)
  have hl2 : (if u64 (m / NBITBLOCK + super.BitmapBlockStart) > super.BitmapBlockStart
      then mkBlock else b1).length = 4096 := by
    split
    · exact hlen
    · rw [hlen1, hlen]
  obtain ⟨b2, hb2, _, hbit2⟩ := markLoop_spec (NBITBLOCK - m % NBITBLOCK) (m % NBITBLOCK)
    (if u64 (m / NBITBLOCK + super.BitmapBlockStart) > super.BitmapBlockStart
      then mkBlock else b1) (by rw [hl2, NBITBLOCK_eq]; omega)
  have hbits1 : ∀ i, getBit b1 i = decide (i < n) := by
    intro i
    rw [hbit1, getBit_mkBlock]
    simp
  refine ⟨b1, b2, hbits1, ?_, ?_⟩
  · intro i
    rw [hbit2]
    have e : m % NBITBLOCK + (NBITBLOCK - m % NBITBLOCK) = NBITBLOCK := by
      rw [NBITBLOCK_eq]; omega
    rw [e]
    split
    · rw [getBit_mkBlock]
    · rw [hbits1]
  · intro w
    have hi := inodeBlock_build
    unfold markAlloc
    rw [h]
    rw [if_neg (by simp), hb1]
    dsimp only
    rw [hb2]
    dsimp only
    cases h1 : orByte mkBlock 0 (1 <<< 0) with
    | none => rw [h1] at hi; simp at hi
    | some c1 =>
      rw [h1] at hi
      simp only [Option.some_bind] at hi
      dsimp only
      rw [hi]

theorem two_pow_64 : (2 : Nat) ^ 64 = 18446744073709551616 := by norm_num

/-- For an accepted configuration whose bitmap region is in range, the second
bitmap write goes to block `BitmapBlockStart + m / NBITBLOCK`, a block of the
bitmap region. -/
theorem blkno_eq (super : FsSuper) (n m : Nat) (h : markAllocRejects super n m = false)
    (hfit : super.bitmapInRange) :
    u64 (m / NBITBLOCK + super.BitmapBlockStart) = super.BitmapBlockStart + m / NBITBLOCK ∧
      m / NBITBLOCK < super.NBlockBitmap := by
  obtain ⟨_, hm, _⟩ := rejects_false super n m h
  have hle : u64 (32768 * super.NBlockBitmap) ≤ 32768 * super.NBlockBitmap := Nat.mod_le _ _
  have hq : m / 32768 < super.NBlockBitmap := by omega
  unfold FsSuper.bitmapInRange at hfit
  rw [two_pow_64] at hfit
  rw [NBITBLOCK_eq]
  refine ⟨?_, hq⟩
  unfold u64
  rw [two_pow_64, Nat.mod_eq_of_lt (by omega)]
  omega

theorem testBit_three : ∀ j < 8, Nat.testBit 3 j = decide (j = 0 ∨ j = 1) := by
  decide

theorem getBit_inodeBitmapBlock (i : Nat) :
    getBit inodeBitmapBlock i = decide (i = 0 ∨ i = 1) := by
  unfold getBit inodeBitmapBlock
  have hi : i % 8 < 8 := Nat.mod_lt _ (by decide)
  cases hq : i / 8 with
  | zero =>
    rw [List.getD_cons_zero, testBit_three _ hi]
    have : (i % 8 = 0 ∨ i % 8 = 1) ↔ (i = 0 ∨ i = 1) := by omega
    simp [this]
  | succ k =>
    rw [List.getD_cons_succ, getD_eq, List.getElem?_replicate]
    have : ¬ (i = 0 ∨ i = 1) := by omega
    split <;> simp [this]

/-! ## Claims about `markAlloc` -/

/-- C1: for every configuration accepted by the check of `markAlloc`, whose
block-bitmap region is in range and all zero beforehand and whose inode-bitmap
block lies outside that region, `markAlloc(super, n, m)` returns and afterwards,
for every block number `bn < m`, bit `bn` of the block bitmap is 1 if and only
if `bn < n`; `makeFs` calls it with `n = DataStart` and `m = MaxBnum`. The case
`m < NBITBLOCK`, where both bitmap writes go to the same block, is included. -/
theorem markAlloc_marks_exactly_metadata_blocks (super : FsSuper) (n m : Nat) (w : World)
    (hok : markAllocRejects super n m = false)
    (hfit : super.bitmapInRange)
    (hzero : ∀ bn, bn < NBITBLOCK * super.NBlockBitmap → blockBit super w.disk bn = false)
    (hout : super.inodeBitmapOutside) :
    (markAlloc super n m w).panicMsg = none ∧
      ∀ bn, bn < m →
        (blockBit super (markAlloc super n m w).world.disk bn = true ↔ bn < n) := by
  obtain ⟨b1, b2, hb1, hb2, hw⟩ := markAlloc_ok super n m hok
  obtain ⟨hblk, hq⟩ := blkno_eq super n m hok hfit
  obtain ⟨hn, hm, hnm⟩ := rejects_false super n m hok
  have hle : u64 (32768 * super.NBlockBitmap) ≤ 32768 * super.NBlockBitmap := Nat.mod_le _ _
  rw [hw w]
  refine ⟨rfl, fun bn hbn => ?_⟩
  have hz := hzero bn (by rw [NBITBLOCK_eq]; omega)
  unfold FsSuper.inodeBitmapOutside at hout
  rw [NBITBLOCK_eq] at hblk hq
  simp only [blockBit, Result.world, World.diskWrite, Disk.write, NBITBLOCK_eq] at hz hb2 ⊢
  simp only [hblk] at hb2 ⊢
  rw [if_neg (by omega)]
  by_cases h2 : bn / 32768 = m / 32768
  · rw [if_pos (by omega), hb2]
    by_cases h0 : m / 32768 = 0
    · rw [if_neg (by omega)]
      have e : bn % 32768 = bn := by omega
      have : ¬ (m % 32768 ≤ bn ∧ bn < 32768) := by omega
      simp [e, this]
    · rw [if_pos (by omega)]
      have h3 : ¬ (m % 32768 ≤ bn % 32768 ∧ bn % 32768 < 32768) := by omega
      have h4 : ¬ bn < n := by omega
      simp [h3, h4]
  · rw [if_neg (by omega)]
    by_cases h0 : bn / 32768 = 0
    · rw [if_pos (by omega), hb1]
      have e : bn % 32768 = bn := by omega
      simp [e]
    · rw [if_neg (by omega), hz]
      have h4 : ¬ bn < n := by omega
      simp [h4]

/-- C2: whenever the check of `markAlloc` passes, for every `n`, `m` and every
previous disk content, the block at `BitmapInodeStart` afterwards has byte 0
equal to 3 and every other byte 0; so for every inode number `i` below
`NBITBLOCK`, inode-bitmap bit `i` is 1 if and only if `i` is 0 or 1. -/
theorem markAlloc_marks_exactly_inodes_0_and_1 (super : FsSuper) (n m : Nat) (w : World)
    (hok : markAllocRejects super n m = false) :
    (markAlloc super n m w).world.disk super.BitmapInodeStart
        = 3 :: List.replicate (BlockSize - 1) 0 ∧
      ∀ i, i < NBITBLOCK →
        (inodeBit super (markAlloc super n m w).world.disk i = true ↔ (i = 0 ∨ i = 1)) := by
  obtain ⟨b1, b2, _, _, hw⟩ := markAlloc_ok super n m hok
  rw [hw w]
  have hd : (Result.ok () (((w.diskWrite super.BitmapBlockStart b1).diskWrite
      (u64 (m / NBITBLOCK + super.BitmapBlockStart)) b2).diskWrite
        super.BitmapInodeStart inodeBitmapBlock)).world.disk super.BitmapInodeStart
      = inodeBitmapBlock := by
    simp [Result.world, World.diskWrite, Disk.write]
  refine ⟨hd, fun i _ => ?_⟩
  unfold inodeBit
  rw [hd, getBit_inodeBitmapBlock]
  simp

/-- C4: `markAlloc(super, n, m)` panics if and only if `n >= NBITBLOCK` or
`m >= NBITBLOCK * NBlockBitmap` (the 64-bit product of the code) or `m < n`; the
panic is the configuration panic and it happens before any write (state
unchanged). For every other input it returns: every byte index `bn / 8` used by
the two marking loops is below the block size, so the index check never
fails. -/
theorem markAlloc_panics_iff_config_rejected (super : FsSuper) (n m : Nat) (w : World) :
    ((markAlloc super n m w).panicMsg ≠ none ↔
        (n ≥ NBITBLOCK ∨ m ≥ u64 (NBITBLOCK * super.NBlockBitmap) ∨ m < n)) ∧
      ((markAlloc super n m w).panicMsg ≠ none →
        (markAlloc super n m w).panicMsg = some PanicMsg.markAllocConfig ∧
          (markAlloc super n m w).world = w) ∧
      (¬ (n ≥ NBITBLOCK ∨ m ≥ u64 (NBITBLOCK * super.NBlockBitmap) ∨ m < n) →
        (∃ w1, markAlloc super n m w = Result.ok () w1) ∧
          ∀ bn, (bn < n ∨ (m % NBITBLOCK ≤ bn ∧ bn < NBITBLOCK)) → bn / 8 < BlockSize) := by
  cases hr : markAllocRejects super n m with
  | true =>
    have hc : n ≥ NBITBLOCK ∨ m ≥ u64 (NBITBLOCK * super.NBlockBitmap) ∨ m < n := by
      simp only [markAllocRejects, Bool.or_eq_true, decide_eq_true_eq] at hr
      tauto
    have hp : markAlloc super n m w = Result.panic PanicMsg.markAllocConfig w := by
      unfold markAlloc
      rw [hr]
      rfl
    rw [hp]
    exact ⟨⟨fun _ => hc, fun _ => by simp [Result.panicMsg]⟩, fun _ => ⟨rfl, rfl⟩,
      fun h => absurd hc h⟩
  | false =>
    obtain ⟨hn, hm, hnm⟩ := rejects_false super n m hr
    obtain ⟨b1, b2, _, _, hw⟩ := markAlloc_ok super n m hr
    have hc : ¬ (n ≥ NBITBLOCK ∨ m ≥ u64 (NBITBLOCK * super.NBlockBitmap) ∨ m < n) := by
      rw [NBITBLOCK_eq]
      omega
    rw [hw w]
    refine ⟨⟨fun h => absurd rfl h, fun h => absurd h hc⟩, fun h => absurd rfl h,
      fun _ => ⟨⟨_, rfl⟩, fun bn hbn => ?_⟩⟩
    rw [NBITBLOCK_eq] at hbn
    show bn / 8 < 4096
    omega

/-- C10: for every accepted configuration whose bitmap region is in range,
`markAlloc(super, n, m)` makes exactly three disk writes, to blocks
`BitmapBlockStart`, `BitmapBlockStart + m / NBITBLOCK` and `BitmapInodeStart`;
every other block is unchanged; what ends up in those three blocks does not
depend on the previous disk; and running it a second time leaves the disk as
the first run left it. -/
theorem markAlloc_frame_and_idempotent (super : FsSuper) (n m : Nat) (w : World)
    (hok : markAllocRejects super n m = false) (hfit : super.bitmapInRange) :
    (markAlloc super n m w).world.trace = w.trace ++
        [Event.diskWrite super.BitmapBlockStart,
          Event.diskWrite (super.BitmapBlockStart + m / NBITBLOCK),
          Event.diskWrite super.BitmapInodeStart] ∧
      (∀ a, a ≠ super.BitmapBlockStart → a ≠ super.BitmapBlockStart + m / NBITBLOCK →
        a ≠ super.BitmapInodeStart → (markAlloc super n m w).world.disk a = w.disk a) ∧
      (∀ (w2 : World) (a : Nat),
        (a = super.BitmapBlockStart ∨ a = super.BitmapBlockStart + m / NBITBLOCK ∨
          a = super.BitmapInodeStart) →
        (markAlloc super n m w).world.disk a = (markAlloc super n m w2).world.disk a) ∧
      (markAlloc super n m (markAlloc super n m w).world).world.disk
        = (markAlloc super n m w).world.disk := by
  obtain ⟨b1, b2, _, _, hw⟩ := markAlloc_ok super n m hok
  obtain ⟨hblk, _⟩ := blkno_eq super n m hok hfit
  simp only [hw, hblk, Result.world, World.diskWrite, Disk.write]
  refine ⟨by simp, fun a h1 h2 h3 => ?_, fun w2 a ha => ?_, ?_⟩
  · rw [if_neg h3, if_neg h2, if_neg h1]
  · by_cases h3 : a = super.BitmapInodeStart
    · rw [if_pos h3, if_pos h3]
    · rw [if_neg h3, if_neg h3]
      by_cases h2 : a = super.BitmapBlockStart + m / NBITBLOCK
      · rw [if_pos h2, if_pos h2]
      · rw [if_neg h2, if_neg h2]
        have h1 : a = super.BitmapBlockStart := by tauto
        rw [if_pos h1, if_pos h1]
  · funext a
    simp only [Disk.write]
    split_ifs <;> rfl

theorem smallSuper_accepted : markAllocRejects smallSuper 1539 20000 = false := by
  decide

theorem smallSuper_inRange : smallSuper.bitmapInRange := by
  unfold FsSuper.bitmapInRange
  decide

theorem smallSuper_outside : smallSuper.inodeBitmapOutside := by
  unfold FsSuper.inodeBitmapOutside
  decide

theorem zeroDisk_blockBit (super : FsSuper) (bn : Nat) : blockBit super zeroDisk bn = false :=
  getBit_mkBlock _

/-- On the zeroed 20000-block disk, formatting sets bit 1000 of the block
bitmap. -/
theorem markAlloc_marks_exactly_metadata_blocks_witness :
    markAllocRejects smallSuper 1539 20000 = false ∧
      blockBit smallSuper
        (markAlloc smallSuper 1539 20000 (World.mk zeroDisk [])).world.disk 1000 = true :=
  ⟨smallSuper_accepted,
    ((markAlloc_marks_exactly_metadata_blocks smallSuper 1539 20000 (World.mk zeroDisk [])
      smallSuper_accepted smallSuper_inRange (fun bn _ => zeroDisk_blockBit smallSuper bn)
      smallSuper_outside).2 1000 (by decide)).2 (by decide)⟩

/-- On the zeroed 20000-block disk `markAlloc` returns for `n = 1539`, and
panics without writing for `n = 40000`. -/
theorem markAlloc_panics_iff_config_rejected_witness :
    (∃ w1, markAlloc smallSuper 1539 20000 (World.mk zeroDisk []) = Result.ok () w1) ∧
      (markAlloc smallSuper 40000 50000 (World.mk zeroDisk [])).panicMsg
        = some PanicMsg.markAllocConfig :=
  ⟨((markAlloc_panics_iff_config_rejected smallSuper 1539 20000
      (World.mk zeroDisk [])).2.2 (by decide)).1,
    ((markAlloc_panics_iff_config_rejected smallSuper 40000 50000
      (World.mk zeroDisk [])).2.1
        ((markAlloc_panics_iff_config_rejected smallSuper 40000 50000
          (World.mk zeroDisk [])).1.2 (by decide))).1⟩

/-- On the zeroed 20000-block disk, formatting leaves byte 0 of the inode
bitmap equal to 3. -/
theorem markAlloc_marks_exactly_inodes_0_and_1_witness :
    markAllocRejects smallSuper 1539 20000 = false ∧
      (markAlloc smallSuper 1539 20000 (World.mk zeroDisk [])).world.disk
          smallSuper.BitmapInodeStart = 3 :: List.replicate (BlockSize - 1) 0 :=
  ⟨smallSuper_accepted,
    (markAlloc_marks_exactly_inodes_0_and_1 smallSuper 1539 20000 (World.mk zeroDisk [])
      smallSuper_accepted).1⟩

/-- On the zeroed 20000-block disk, formatting writes blocks 513, 513 and
514. -/
theorem markAlloc_frame_and_idempotent_witness :
    markAllocRejects smallSuper 1539 20000 = false ∧ smallSuper.bitmapInRange ∧
      (markAlloc smallSuper 1539 20000 (World.mk zeroDisk [])).world.trace = [] ++
        [Event.diskWrite smallSuper.BitmapBlockStart,
          Event.diskWrite (smallSuper.BitmapBlockStart + 20000 / NBITBLOCK),
          Event.diskWrite smallSuper.BitmapInodeStart] :=
  ⟨smallSuper_accepted, smallSuper_inRange,
    (markAlloc_frame_and_idempotent smallSuper 1539 20000 (World.mk zeroDisk [])
      smallSuper_accepted smallSuper_inRange).1⟩

/-! ## Shape of the runs of `makeRootDir` and `MakeNfs` -/

theorem markAlloc_rejected (super : FsSuper) (n m : Nat) (w : World)
    (h : markAllocRejects super n m = true) :
    markAlloc super n m w = Result.panic PanicMsg.markAllocConfig w := by
  unfold markAlloc
  rw [h]
  rfl

theorem markAlloc_trace (super : FsSuper) (n m : Nat) (w : World)
    (h : markAllocRejects super n m = false) :
    ∃ d1, markAlloc super n m w = Result.ok () (World.mk d1 (w.trace ++
      [Event.diskWrite super.BitmapBlockStart,
        Event.diskWrite (u64 (m / NBITBLOCK + super.BitmapBlockStart)),
        Event.diskWrite super.BitmapInodeStart])) := by
  obtain ⟨b1, b2, _, _, hw⟩ := markAlloc_ok super n m h
  refine ⟨(((w.diskWrite super.BitmapBlockStart b1).diskWrite
    (u64 (m / NBITBLOCK + super.BitmapBlockStart)) b2).diskWrite
      super.BitmapInodeStart inodeBitmapBlock).disk, ?_⟩
  rw [hw w]
  simp only [World.diskWrite, List.append_assoc, List.singleton_append, List.cons_append,
    List.nil_append]

theorem makeRootDir_nil (E : Env) (w : World)
    (h : E.getInodeInumFree ROOTINUM (fetchState E w) = none) :
    ∃ d1, makeRootDir E w = Result.panic PanicMsg.makeRootDir
      (World.mk d1 (w.trace ++ [Event.begin, Event.getInodeInumFree ROOTINUM])) := by
  refine ⟨((fetchState E w).call E (Event.getInodeInumFree ROOTINUM)).disk, ?_⟩
  unfold makeRootDir
  simp only [fetchState, World.call] at h ⊢
  simp only [h, List.append_assoc, List.singleton_append, List.cons_append, List.nil_append]

theorem makeRootDir_some (E : Env) (w : World) (ip : Inode)
    (h : E.getInodeInumFree ROOTINUM (fetchState E w) = some ip) :
    ∃ d1, makeRootDir E w =
      (if E.commitOk (commitState E w) = true
        then Result.ok () (World.mk d1 (w.trace ++
          [Event.begin, Event.getInodeInumFree ROOTINUM, Event.mkRootDir, Event.commit]))
        else Result.panic PanicMsg.makeRootDir (World.mk d1 (w.trace ++
          [Event.begin, Event.getInodeInumFree ROOTINUM, Event.mkRootDir, Event.commit]))) := by
  refine ⟨((commitState E w).call E Event.commit).disk, ?_⟩
  unfold makeRootDir
  simp only [commitState, fetchState, World.call] at h ⊢
  simp only [h, List.append_assoc, List.singleton_append, List.cons_append, List.nil_append]
  cases E.commitOk _ <;> simp

theorem MakeNfs_eq (E : Env) (d : Disk) :
    MakeNfs E d =
      (if rootKind E d = 0 then
          makeFs E (E.mkFsSuper d) (World.mk (recovered E d) (mountHead E d))
        else Result.ok () (World.mk (recovered E d) (mountHead E d))).andThen
        fun _ w4 =>
          (if rootKind E d = 0 then
              makeRootDir E ((w4.call E Event.mkFsState).call E Event.mkShrinkerSt)
            else Result.ok () ((w4.call E Event.mkFsState).call E Event.mkShrinkerSt)).andThen
            fun _ w6 => Result.ok (Nfs.mk true) w6 :=
  rfl

theorem MakeNfs_used (E : Env) (d : Disk) (hk : rootKind E d ≠ 0) :
    ∃ d1, (E.quietState → d1 = recovered E d) ∧
      MakeNfs E d = Result.ok (Nfs.mk true)
        (World.mk d1 (mountHead E d ++ [Event.mkFsState, Event.mkShrinkerSt])) := by
  refine ⟨(((World.mk (recovered E d) (mountHead E d)).call E Event.mkFsState).call E
    Event.mkShrinkerSt).disk, fun hq => ?_, ?_⟩
  · simp only [World.call, (hq _).1, (hq _).2]
  · rw [MakeNfs_eq]
    simp only [if_neg hk]
    rfl

theorem MakeNfs_unused_rejected (E : Env) (d : Disk) (hk : rootKind E d = 0)
    (hr : markAllocRejects (E.mkFsSuper d) (E.mkFsSuper d).DataStart (E.mkFsSuper d).MaxBnum
      = true) :
    ∃ d1, MakeNfs E d = Result.panic PanicMsg.markAllocConfig (World.mk d1
      (mountHead E d ++
        [Event.mkRootInode, Event.writeDirect (E.mkFsSuper d).RootBlkno])) := by
  refine ⟨(((World.mk (recovered E d) (mountHead E d)).call E Event.mkRootInode).call E
    (Event.writeDirect (E.mkFsSuper d).RootBlkno)).disk, ?_⟩
  rw [MakeNfs_eq]
  simp only [if_pos hk]
  unfold makeFs
  rw [markAlloc_rejected _ _ _ _ hr]
  rfl

theorem MakeNfs_unused_accepted (E : Env) (d : Disk) (hk : rootKind E d = 0)
    (hr : markAllocRejects (E.mkFsSuper d) (E.mkFsSuper d).DataStart (E.mkFsSuper d).MaxBnum
      = false) :
    ∃ d1, MakeNfs E d = (makeRootDir E (World.mk d1
      (mountHead E d ++ formatBody E d))).andThen
      (fun _ w6 => Result.ok (Nfs.mk true) w6) := by
  obtain ⟨d1, h1⟩ := markAlloc_trace (E.mkFsSuper d) (E.mkFsSuper d).DataStart
    (E.mkFsSuper d).MaxBnum
    (((World.mk (recovered E d) (mountHead E d)).call E Event.mkRootInode).call E
      (Event.writeDirect (E.mkFsSuper d).RootBlkno)) hr
  refine ⟨(((World.mk d1 (mountHead E d ++
    [Event.mkRootInode, Event.writeDirect (E.mkFsSuper d).RootBlkno,
      Event.diskWrite (E.mkFsSuper d).BitmapBlockStart,
      Event.diskWrite (u64 ((E.mkFsSuper d).MaxBnum / NBITBLOCK +
        (E.mkFsSuper d).BitmapBlockStart)),
      Event.diskWrite (E.mkFsSuper d).BitmapInodeStart])).call E Event.mkFsState).call E
        Event.mkShrinkerSt).disk, ?_⟩
  rw [MakeNfs_eq]
  simp only [if_pos hk]
  unfold makeFs
  rw [h1]
  rfl

/-- The four shapes of a run of `MakeNfs`: mount of an existing file system;
format stopped by the configuration panic; format followed by a root-directory
transaction that finds no root inode; format followed by a root-directory
transaction that reaches `Commit`. -/
theorem MakeNfs_cases (E : Env) (d : Disk) :
    (rootKind E d ≠ 0 ∧ (MakeNfs E d).panicMsg = none ∧
        (E.quietState → (MakeNfs E d).world.disk = recovered E d) ∧
        (MakeNfs E d).world.trace = mountHead E d ++ [Event.mkFsState, Event.mkShrinkerSt]) ∨
      (rootKind E d = 0 ∧
        markAllocRejects (E.mkFsSuper d) (E.mkFsSuper d).DataStart (E.mkFsSuper d).MaxBnum
          = true ∧
        (MakeNfs E d).panicMsg = some PanicMsg.markAllocConfig ∧
        (MakeNfs E d).world.trace = mountHead E d ++
          [Event.mkRootInode, Event.writeDirect (E.mkFsSuper d).RootBlkno]) ∨
      (rootKind E d = 0 ∧
        markAllocRejects (E.mkFsSuper d) (E.mkFsSuper d).DataStart (E.mkFsSuper d).MaxBnum
          = false ∧
        (MakeNfs E d).panicMsg = some PanicMsg.makeRootDir ∧
        (MakeNfs E d).world.trace = mountHead E d ++ formatBody E d ++
          [Event.begin, Event.getInodeInumFree ROOTINUM]) ∨
      (rootKind E d = 0 ∧
        markAllocRejects (E.mkFsSuper d) (E.mkFsSuper d).DataStart (E.mkFsSuper d).MaxBnum
          = false ∧
        ((MakeNfs E d).panicMsg = none ∨ (MakeNfs E d).panicMsg = some PanicMsg.makeRootDir) ∧
        (MakeNfs E d).world.trace = mountHead E d ++ formatBody E d ++
          [Event.begin, Event.getInodeInumFree ROOTINUM, Event.mkRootDir, Event.commit]) := by
  by_cases hk : rootKind E d = 0
  · cases hr : markAllocRejects (E.mkFsSuper d) (E.mkFsSuper d).DataStart
        (E.mkFsSuper d).MaxBnum with
    | true =>
      obtain ⟨d1, h⟩ := MakeNfs_unused_rejected E d hk hr
      right; left
      rw [h]
      exact ⟨hk, rfl, rfl, rfl⟩
    | false =>
      obtain ⟨d1, h⟩ := MakeNfs_unused_accepted E d hk hr
      right; right
      rw [h]
      cases hip : E.getInodeInumFree ROOTINUM (fetchState E (World.mk d1 (mountHead E d ++
          formatBody E d))) with
      | none =>
        left
        obtain ⟨d2, h2⟩ := makeRootDir_nil E (World.mk d1 (mountHead E d ++ formatBody E d))
          hip
        rw [h2]
        exact ⟨hk, rfl, rfl, rfl⟩
      | some ip =>
        right
        obtain ⟨d2, h2⟩ := makeRootDir_some E (World.mk d1 (mountHead E d ++ formatBody E d))
          ip hip
        rw [h2]
        split
        · exact ⟨hk, rfl, Or.inl rfl, rfl⟩
        · exact ⟨hk, rfl, Or.inr rfl, rfl⟩
  · left
    obtain ⟨d1, hq, h⟩ := MakeNfs_used E d hk
    rw [h]
    exact ⟨hk, rfl, hq, rfl⟩

/-! ## Claims about mounting, the root directory and shutdown -/

/-- Soundness of `allBefore`: every `p` event of the trace has a smaller
index than every `q` event. -/
theorem allBefore_sound (p q : Event → Bool) :
    ∀ t : List Event, allBefore p q t = true →
      ∀ (i j : Nat) (e f : Event),
        t[i]? = some e → t[j]? = some f → p e = true → q f = true → i < j := by
  intro t
  induction t with
  | nil =>
    intro _ i j e f hi
    simp at hi
  | cons a t ih =>
    intro h i j e f hi hj hp hq
    simp only [allBefore, Bool.and_eq_true, Bool.or_eq_true, Bool.not_eq_eq_eq_not,
      Bool.not_true, List.all_eq_true] at h
    obtain ⟨h1, h2⟩ := h
    cases j with
    | zero =>
      simp only [List.getElem?_cons_zero, Option.some.injEq] at hj
      subst hj
      rcases h1 with h1 | ⟨h1, h3⟩
      · rw [hq] at h1
        cases h1
      · cases i with
        | zero =>
          simp only [List.getElem?_cons_zero, Option.some.injEq] at hi
          subst hi
          rw [hp] at h1
          cases h1
        | succ i =>
          simp only [List.getElem?_cons_succ] at hi
          have hm : e ∈ t := List.getElem?_mem hi
          have := h3 e hm
          rw [hp] at this
          cases this
    | succ j =>
      cases i with
      | zero => exact Nat.succ_pos j
      | succ i =>
        simp only [List.getElem?_cons_succ] at hi hj
        exact Nat.succ_lt_succ (ih h2 i j e f hi hj hp hq)

/-- Soundness of `precededBy`: every `p` event of the trace has a `q` event at
a smaller index, unless a `q` event was seen before the trace. -/
theorem precededBy_sound (q p : Event → Bool) :
    ∀ (t : List Event) (seen : Bool), precededBy q p seen t = true →
      ∀ (i : Nat) (e : Event), t[i]? = some e → p e = true →
        seen = true ∨ ∃ (j : Nat) (f : Event), j < i ∧ t[j]? = some f ∧ q f = true := by
  intro t
  induction t with
  | nil =>
    intro _ _ i e hi
    simp at hi
  | cons a t ih =>
    intro seen h i e hi hp
    simp only [precededBy, Bool.and_eq_true, Bool.or_eq_true, Bool.not_eq_eq_eq_not,
      Bool.not_true] at h
    obtain ⟨h1, h2⟩ := h
    cases i with
    | zero =>
      simp only [List.getElem?_cons_zero, Option.some.injEq] at hi
      subst hi
      rcases h1 with h1 | h1
      · rw [hp] at h1
        cases h1
      · exact Or.inl h1
    | succ i =>
      simp only [List.getElem?_cons_succ] at hi
      rcases ih (seen || q a) h2 i e hi hp with h3 | ⟨j, f, hj, hf, hqf⟩
      · simp only [Bool.or_eq_true] at h3
        rcases h3 with h3 | h3
        · exact Or.inl h3
        · exact Or.inr ⟨0, a, Nat.succ_pos i, List.getElem?_cons_zero, h3⟩
      · exact Or.inr ⟨j + 1, f, Nat.succ_lt_succ hj, by simpa using hf, hqf⟩

theorem isMkLog_eq (f : Event) (h : f.isMkLog = true) : f = Event.mkLog := by
  cases f <;> simp [Event.isMkLog] at h ⊢

/-- The run of `MakeNfs` on a freshly zeroed disk of 20000 blocks. -/
theorem MakeNfs_fresh_trace :
    (MakeNfs freshEnv zeroDisk).world.trace
      = [Event.mkFsSuper, Event.mkLog, Event.diskRead 515, Event.mkRootInode,
          Event.writeDirect 515, Event.diskWrite 513, Event.diskWrite 513,
          Event.diskWrite 514, Event.mkFsState, Event.mkShrinkerSt, Event.begin,
          Event.getInodeInumFree 1, Event.mkRootDir, Event.commit] := by
  obtain ⟨d1, h⟩ := MakeNfs_unused_accepted freshEnv zeroDisk rfl (by decide)
  have e : formatBody freshEnv zeroDisk
      = [Event.mkRootInode, Event.writeDirect 515, Event.diskWrite 513, Event.diskWrite 513,
          Event.diskWrite 514, Event.mkFsState, Event.mkShrinkerSt] := by
    decide
  rw [h, e]
  rfl

/-- C3 as stated fails: on a freshly zeroed disk of 1000 blocks the root inode
read has `Kind` 0 and `makeFs` is called, but `markAlloc` rejects the layout
(`MaxBnum = 1000 < DataStart = 1539`) and panics, so `makeRootDir` is never
called: one of the two is called, not both or neither. -/
theorem MakeNfs_format_abort_skips_makeRootDir :
    rootKind tinyEnv zeroDisk = 0 ∧
      Event.mkRootInode ∈ (MakeNfs tinyEnv zeroDisk).world.trace ∧
      Event.begin ∉ (MakeNfs tinyEnv zeroDisk).world.trace ∧
      (MakeNfs tinyEnv zeroDisk).panicMsg = some PanicMsg.markAllocConfig := by
  obtain ⟨d1, h⟩ := MakeNfs_unused_rejected tinyEnv zeroDisk rfl (by decide)
  rw [h]
  refine ⟨rfl, ?_, ?_, rfl⟩ <;> simp [Result.world, mountHead]

/-- C3, amended: `MakeNfs` reads the root inode once, after the layout is
computed and after `obj.MkLog` has run recovery; it calls `makeFs` (at most
once) exactly when the `Kind` read is 0, and `makeRootDir` (at most once)
exactly when that `Kind` is 0 and `makeFs` has returned, that is when
`markAlloc` accepted the layout; in every run that returns, both are called or
neither, exactly when the `Kind` is 0. When the `Kind` is not 0, `MakeNfs`
returns, its trace has no direct write and no `Begin`, and, the constructors of
the in-memory state leaving the disk alone, the whole disk is as recovery left
it. -/
theorem MakeNfs_formats_iff_root_unused (E : Env) (d : Disk) :
    (MakeNfs E d).world.trace.take 3 = mountHead E d ∧
      (MakeNfs E d).world.trace.filter Event.isDiskRead
        = [Event.diskRead (E.mkFsSuper d).RootBlkno] ∧
      (Event.mkRootInode ∈ (MakeNfs E d).world.trace ↔ rootKind E d = 0) ∧
      (Event.begin ∈ (MakeNfs E d).world.trace ↔
        (rootKind E d = 0 ∧ markAllocRejects (E.mkFsSuper d) (E.mkFsSuper d).DataStart
          (E.mkFsSuper d).MaxBnum = false)) ∧
      ((MakeNfs E d).panicMsg = none →
        (Event.begin ∈ (MakeNfs E d).world.trace ↔ rootKind E d = 0)) ∧
      (MakeNfs E d).world.trace.count Event.mkRootInode ≤ 1 ∧
      (MakeNfs E d).world.trace.count Event.begin ≤ 1 ∧
      (rootKind E d ≠ 0 →
        (MakeNfs E d).panicMsg = none ∧
          (MakeNfs E d).world.trace.all (fun e => !e.isDirectWrite) = true ∧
          Event.begin ∉ (MakeNfs E d).world.trace ∧
          (E.quietState → (MakeNfs E d).world.disk = recovered E d)) := by
  rcases MakeNfs_cases E d with ⟨hk, hp, hd, ht⟩ | ⟨hk, hr, hp, ht⟩ | ⟨hk, hr, hp, ht⟩ |
    ⟨hk, hr, hp, ht⟩
  · rw [ht, hp]
    simp only [mountHead, Event.isDiskRead, Event.isDirectWrite, hk]
    simp
    exact ⟨rfl, fun _ => hd⟩
  · rw [ht, hp]
    simp [mountHead, Event.isDiskRead, hk, hr]
  · rw [ht, hp]
    simp [mountHead, formatBody, Event.isDiskRead, hk, hr]
  · rw [ht]
    simp [mountHead, formatBody, Event.isDiskRead, hk, hr]

theorem usedEnv_quiet : usedEnv.quietState :=
  fun _ => ⟨rfl, rfl⟩

/-- A mount of a disk that already holds a file system returns and leaves
the disk as recovery left it. -/
theorem MakeNfs_formats_iff_root_unused_witness :
    rootKind usedEnv zeroDisk ≠ 0 ∧ usedEnv.quietState ∧
      (MakeNfs usedEnv zeroDisk).panicMsg = none ∧
      (MakeNfs usedEnv zeroDisk).world.disk = recovered usedEnv zeroDisk :=
  ⟨by decide, usedEnv_quiet,
    ((MakeNfs_formats_iff_root_unused usedEnv zeroDisk).2.2.2.2.2.2.2 (by decide)).1,
    ((MakeNfs_formats_iff_root_unused usedEnv zeroDisk).2.2.2.2.2.2.2 (by decide)).2.2.2
      usedEnv_quiet⟩

/-- C5: `makeRootDir` begins exactly one transaction, fetches inode
`ROOTINUM` with `GetInodeInumFree`, calls `dir.MkRootDir` and then `Commit`
exactly once; it panics if and only if `GetInodeInumFree` returns nil or
`Commit` returns false; when the inode is nil it panics right after the fetch,
before `MkRootDir` and `Commit`. -/
theorem makeRootDir_one_transaction (E : Env) (w : World) :
    ((makeRootDir E w).panicMsg ≠ none ↔
        (E.getInodeInumFree ROOTINUM (fetchState E w) = none ∨
          E.commitOk (commitState E w) = false)) ∧
      ((makeRootDir E w).panicMsg = none ∨
        (makeRootDir E w).panicMsg = some PanicMsg.makeRootDir) ∧
      (E.getInodeInumFree ROOTINUM (fetchState E w) = none →
        (makeRootDir E w).world.trace = w.trace ++
          [Event.begin, Event.getInodeInumFree ROOTINUM]) ∧
      (E.getInodeInumFree ROOTINUM (fetchState E w) ≠ none →
        (makeRootDir E w).world.trace = w.trace ++
          [Event.begin, Event.getInodeInumFree ROOTINUM, Event.mkRootDir, Event.commit]) := by
  cases hip : E.getInodeInumFree ROOTINUM (fetchState E w) with
  | none =>
    obtain ⟨d1, h⟩ := makeRootDir_nil E w hip
    rw [h]
    simp [Result.panicMsg, Result.world]
  | some ip =>
    obtain ⟨d1, h⟩ := makeRootDir_some E w ip hip
    rw [h]
    cases hc : E.commitOk (commitState E w) <;> simp [Result.panicMsg, Result.world]

/-- With the root inode available and a successful commit, `makeRootDir`
makes its four calls in order. -/
theorem makeRootDir_one_transaction_witness :
    freshEnv.getInodeInumFree ROOTINUM (fetchState freshEnv (World.mk zeroDisk [])) ≠ none ∧
      (makeRootDir freshEnv (World.mk zeroDisk [])).world.trace = [] ++
        [Event.begin, Event.getInodeInumFree ROOTINUM, Event.mkRootDir, Event.commit] :=
  ⟨by decide,
    (makeRootDir_one_transaction freshEnv (World.mk zeroDisk [])).2.2.2 (by decide)⟩

/-- C6: evaluation of `Crash` on a fresh server: the calls it makes are the
shrinker's `Crash` followed by the whole graceful path, the shrinker's waiting
`Shutdown` and the transaction manager's `Shutdown`. -/
theorem Crash_calls_graceful_shutdown :
    (Crash freshEnv (World.mk zeroDisk [])).trace
        = [Event.shrinkerCrash, Event.shrinkerShutdown, Event.txnShutdown] ∧
      Event.shrinkerShutdown ∈ (Crash freshEnv (World.mk zeroDisk [])).trace ∧
      Event.txnShutdown ∈ (Crash freshEnv (World.mk zeroDisk [])).trace :=
  ⟨rfl, by decide, by decide⟩

/-- In every server state the calls made by `Crash` are the shrinker's
`Crash` followed by those of `ShutdownNfs`. -/
theorem Crash_is_shrinker_crash_then_shutdown (E : Env) (w : World) :
    (Crash E w).trace
        = w.trace ++ [Event.shrinkerCrash, Event.shrinkerShutdown, Event.txnShutdown] ∧
      Crash E w = ShutdownNfs E (w.call E Event.shrinkerCrash) := by
  refine ⟨?_, rfl⟩
  simp [Crash, ShutdownNfs, World.call]

/-- C7 as stated fails: formatting a fresh disk makes its direct writes after
`obj.MkLog`, not before it. -/
theorem MakeNfs_direct_writes_follow_mkLog :
    (MakeNfs freshEnv zeroDisk).world.trace
        = [Event.mkFsSuper, Event.mkLog, Event.diskRead 515, Event.mkRootInode,
            Event.writeDirect 515, Event.diskWrite 513, Event.diskWrite 513,
            Event.diskWrite 514, Event.mkFsState, Event.mkShrinkerSt, Event.begin,
            Event.getInodeInumFree 1, Event.mkRootDir, Event.commit] ∧
      allBefore Event.isDirectWrite Event.isMkLog (MakeNfs freshEnv zeroDisk).world.trace
        = false := by
  rw [MakeNfs_fresh_trace]
  exact ⟨rfl, rfl⟩

/-- C7, amended: in every run of `MakeNfs`, `obj.MkLog` is called exactly
once, and every write that bypasses the transaction/log path (the root inode's
`WriteDirect` and the raw bitmap writes of `markAlloc`) occurs after that call,
which created the log and ran recovery: the trace has `MkLog` at a smaller
index than the write. Every such write also occurs before the transaction
system's state is built and before any transaction is begun. -/
theorem MakeNfs_direct_writes_between_mkLog_and_txn (E : Env) (d : Disk) :
    (MakeNfs E d).world.trace.count Event.mkLog = 1 ∧
      (∀ (i : Nat) (e : Event),
        (MakeNfs E d).world.trace[i]? = some e → e.isDirectWrite = true →
        ∃ j : Nat, j < i ∧ (MakeNfs E d).world.trace[j]? = some Event.mkLog) ∧
      (∀ (i j : Nat) (e f : Event), (MakeNfs E d).world.trace[i]? = some e →
        (MakeNfs E d).world.trace[j]? = some f →
        e.isDirectWrite = true → f.isTxnStart = true → i < j) := by
  have hcount : (MakeNfs E d).world.trace.count Event.mkLog = 1 := by
    rcases MakeNfs_cases E d with ⟨_, _, _, ht⟩ | ⟨_, _, _, ht⟩ | ⟨_, _, _, ht⟩ |
      ⟨_, _, _, ht⟩ <;> rw [ht] <;> simp [mountHead, formatBody]
  have hpre : precededBy Event.isMkLog Event.isDirectWrite false
      (MakeNfs E d).world.trace = true := by
    rcases MakeNfs_cases E d with ⟨_, _, _, ht⟩ | ⟨_, _, _, ht⟩ | ⟨_, _, _, ht⟩ |
      ⟨_, _, _, ht⟩ <;> rw [ht] <;> rfl
  have hbef : allBefore Event.isDirectWrite Event.isTxnStart
      (MakeNfs E d).world.trace = true := by
    rcases MakeNfs_cases E d with ⟨_, _, _, ht⟩ | ⟨_, _, _, ht⟩ | ⟨_, _, _, ht⟩ |
      ⟨_, _, _, ht⟩ <;> rw [ht] <;> rfl
  refine ⟨hcount, fun i e hi he => ?_, allBefore_sound _ _ _ hbef⟩
  rcases precededBy_sound _ _ _ false hpre i e hi he with h | ⟨j, f, hj, hf, hq⟩
  · cases h
  · exact ⟨j, hj, by rw [hf, isMkLog_eq f hq]⟩

/-- On a freshly zeroed disk the root inode's `WriteDirect`, fifth call of the
run, has `obj.MkLog` before it. -/
theorem MakeNfs_direct_writes_between_mkLog_and_txn_witness :
    (MakeNfs freshEnv zeroDisk).world.trace[4]? = some (Event.writeDirect 515) ∧
      ∃ j : Nat, j < 4 ∧ (MakeNfs freshEnv zeroDisk).world.trace[j]? = some Event.mkLog :=
  ⟨by rw [MakeNfs_fresh_trace]; rfl,
    (MakeNfs_direct_writes_between_mkLog_and_txn freshEnv zeroDisk).2.1 4
      (Event.writeDirect 515) (by rw [MakeNfs_fresh_trace]; rfl) rfl⟩

/-- C8: for every server state, `ShutdownNfs` calls the shrinker's `Shutdown`
exactly once and then the transaction manager's `Shutdown` exactly once, and
no other shutdown or crash operation. -/
theorem ShutdownNfs_shrinker_then_txn (E : Env) (w : World) :
    (ShutdownNfs E w).trace = w.trace ++ [Event.shrinkerShutdown, Event.txnShutdown] ∧
      ((ShutdownNfs E w).trace.drop w.trace.length).filter Event.isShutdownOp
        = [Event.shrinkerShutdown, Event.txnShutdown] := by
  have h : (ShutdownNfs E w).trace
      = w.trace ++ [Event.shrinkerShutdown, Event.txnShutdown] := by
    simp [ShutdownNfs, World.call]
  rw [h]
  simp [Event.isShutdownOp]

end NfsModel
